import Mathlib

/-!
Verification of the deployment-tracking and artifact-correlation core of the
openscan explorer hardhat plugin.

JavaScript strings are modelled as lists of characters (type JStr below):
the strings handled by this code are hex blobs, file names and HTML/JSON
text, for which one Lean Char per UTF-16 code unit is exact.
String operations used by the source (toLowerCase, startsWith, endsWith,
split, replace) are modelled by the correspondingly named functions here.
-/

/-- A JavaScript string, modelled as its list of characters. -/
abbrev JStr := List Char

/-- JS String.prototype.toLowerCase (per-character lowering; exact on the
ASCII hex/identifier data this plugin handles). -/
def jsLower (s : JStr) : JStr := s.map Char.toLower

/-- Case-insensitive character equality, as used by a regex with the i flag. -/
def ciEqChar (a b : Char) : Bool := a.toLower == b.toLower

/-- ciStartsWith p s: p is a case-insensitive prefix of s. -/
def ciStartsWith : JStr → JStr → Bool
  | [], _ => true
  | _ :: _, [] => false
  | p :: ps, c :: cs => ciEqChar p c && ciStartsWith ps cs

/-- JS String.prototype.split with a one-character separator. -/
def jsSplit (sep : Char) : JStr → List JStr
  | [] => [[]]
  | c :: cs =>
    let r := jsSplit sep cs
    if c = sep then [] :: r
    else
      match r with
      | [] => [[c]]
      | h :: t => (c :: h) :: t

/-- JS String.prototype.endsWith. -/
def jsEndsWith (suffix s : JStr) : Bool := suffix.isSuffixOf s

/-!
## Model of JSON values (the parse result of an artifact file field)

JSON.parse either throws (a file is then skipped by the scanners) or yields
a value; a field read off the parsed object yields undefined (modelled by
Option.none) or a JSON value.  JS truthiness decides whether the scanners
accept a field.
-/

/-- A parsed JSON value, as far as this code observes it.  Objects other
than the artifact shape itself are only passed through opaquely. -/
inductive JsVal where
  | vStr (s : JStr)
  | vNum (n : Int)
  | vBool (b : Bool)
  | vNull
  | vArr (elems : List JsVal)
  | vObjOpaque
deriving Repr

/-- JS truthiness of a value. -/
def truthy : JsVal → Bool
  | .vStr s => !s.isEmpty
  | .vNum n => !(n == 0)
  | .vBool b => b
  | .vNull => false
  | .vArr _ => true
  | .vObjOpaque => true

/-- JS truthiness of a possibly-undefined value. -/
def truthyOpt : Option JsVal → Bool
  | none => false
  | some v => truthy v

/-- The fields the scanners read off a parsed artifact JSON document
(a document without one of them yields undefined for that field). -/
structure ParsedContent where
  contractName : Option JsVal
  sourceName : Option JsVal
  abi : Option JsVal
  bytecode : Option JsVal
  buildInfoId : Option JsVal
deriving Repr

/-- Coerce a field value to the string the TS code casts it to; non-string
runtime values are modelled as the empty string (build-system artifacts
always carry strings here). -/
def asStr : Option JsVal → JStr
  | some (.vStr s) => s
  | _ => []

/-- Model of the TS cast to (string or undefined). -/
def asStrOpt : Option JsVal → Option JStr
  | some (.vStr s) => some s
  | _ => none

/-- Model of (artifact.abi as unknown[]); non-array values are modelled as
the empty array. -/
def asArr : Option JsVal → List JsVal
  | some (.vArr l) => l
  | _ => []

/-!
## Data model (src/packages/plugin/src/deployment-tracker.ts and artifacts.ts)
-/

/-- CompiledArtifact, deployment-tracker.ts lines 5-11. -/
structure CompiledArtifact where
  contractName : JStr
  sourceName : JStr
  abi : List JsVal
  bytecode : JStr
  buildInfoId : Option JStr
deriving Repr

/-- ArtifactData, artifacts.ts lines 4-12.  Optional fields are absent
(undefined) when their Option is none. -/
structure ArtifactData where
  abi : List JsVal
  contractName : JStr
  sourceName : Option JStr
  buildInfoId : Option JStr
  sourceCode : Option JStr
  buildInfo : Option JsVal
  deployments : List JStr
deriving Repr

/-- AddressMap = Record of string to ArtifactData: a JS object, modelled as
an association list in property insertion order (keys are unique in any
state a JS object can reach). -/
abbrev AddressMap := List (JStr × ArtifactData)

/-- Property read m[k] on a JS object. -/
def lookupKey (m : AddressMap) (k : JStr) : Option ArtifactData :=
  match m with
  | [] => none
  | (k1, v1) :: rest => if k1 = k then some v1 else lookupKey rest k

/-- Property write m[k] = v on a JS object: overwrite in place if the key
exists, append otherwise (insertion-order semantics). -/
def setKey (m : AddressMap) (k : JStr) (v : ArtifactData) : AddressMap :=
  match m with
  | [] => [(k, v)]
  | (k1, v1) :: rest => if k1 = k then (k, v) :: rest else (k1, v1) :: setKey rest k v

/-- The keys of an AddressMap. -/
def mapKeys (m : AddressMap) : List JStr := m.map Prod.fst

/-!
## Bytecode prefix matching (deployment-tracker.ts lines 134-147)
-/

/-- The matching condition of findMatchingArtifact, lines 139-142: the
candidate bytecode, lowercased, is meaningful (longer than the bare hex
prefix of 2 characters) and is a literal prefix of the lowercased
creation data. -/
def matchesCreationData (creationData : JStr) (artifact : CompiledArtifact) : Bool :=
  let normalizedData := jsLower creationData
  let normalizedBytecode := jsLower artifact.bytecode
  decide (2 < normalizedBytecode.length) && normalizedBytecode.isPrefixOf normalizedData

/-- The for-of loop of findMatchingArtifact, lines 136-145. -/
def findMatchLoop (normalizedData : JStr) : List CompiledArtifact → Option CompiledArtifact
  | [] => none
  | artifact :: rest =>
    let normalizedBytecode := jsLower artifact.bytecode
    if decide (2 < normalizedBytecode.length) && normalizedBytecode.isPrefixOf normalizedData then
      some artifact
    else
      findMatchLoop normalizedData rest

/-- findMatchingArtifact, deployment-tracker.ts lines 134-147. -/
def findMatchingArtifact (artifacts : List CompiledArtifact) (creationData : JStr) : Option CompiledArtifact :=
  findMatchLoop (jsLower creationData) artifacts

/-!
## Generic JS Map operations (the pendingTxs Map of the tracker)
-/

/-- JS Map.prototype.get (also plain association lookup for file tables). -/
def mapGet {K A : Type} [DecidableEq K] : List (K × A) → K → Option A
  | [], _ => none
  | (k1, v1) :: rest, k => if k1 = k then some v1 else mapGet rest k

/-- JS Map.prototype.set: overwrite in place if present, append otherwise. -/
def mapSet {K A : Type} [DecidableEq K] : List (K × A) → K → A → List (K × A)
  | [], k, v => [(k, v)]
  | (k1, v1) :: rest, k, v =>
    if k1 = k then (k, v) :: rest else (k1, v1) :: mapSet rest k v

/-- JS Map.prototype.delete (keys of a Map are unique, so removing every
binding of the key is the same operation). -/
def mapDelete {K A : Type} [DecidableEq K] (m : List (K × A)) (k : K) : List (K × A) :=
  m.filter (fun p => decide (p.1 ≠ k))

/-!
## The DeploymentTracker state machine (deployment-tracker.ts lines 17-152)

File reads done at receipt time are modelled by a ProjectFs giving, for the
paths the code probes with existsSync, the content found there (absent key:
the file does not exist).
-/

/-- The on-disk files the tracker's enrichment step can touch. -/
structure ProjectFs where
  /-- projectRoot/contracts/(file): source text by file name. -/
  contractsFiles : List (JStr × JStr)
  /-- projectRoot/artifacts/build-info/(id).json: JSON.parse outcome by id
  (none = the file exists but does not parse). -/
  buildInfoFiles : List (JStr × Option JsVal)

/-- The mutable state of a DeploymentTracker instance (lines 18-21;
projectRoot is folded into ProjectFs). -/
structure TrackerState where
  compiledArtifacts : List CompiledArtifact
  trackedDeployments : AddressMap
  pendingTxs : List (JStr × JStr)

/-- trackSendTransaction, lines 70-72. -/
def trackSendTransaction (st : TrackerState) (txHash data : JStr) : TrackerState :=
  { st with pendingTxs := mapSet st.pendingTxs txHash data }

/-- The ArtifactData built on a successful match, lines 87-129, including
the best-effort source-code and build-info enrichment. -/
def buildEntry (fs : ProjectFs) (artifact : CompiledArtifact) (contractAddress : JStr) : ArtifactData :=
  let base : ArtifactData :=
    { abi := artifact.abi
      contractName := artifact.contractName
      sourceName := some artifact.sourceName
      buildInfoId := artifact.buildInfoId
      sourceCode := none
      buildInfo := none
      deployments := [contractAddress] }
  let withSource :=
    if artifact.sourceName.isEmpty then base
    else
      match (jsSplit '/' artifact.sourceName).getLast? with
      | none => base
      | some sourceFileName =>
        if sourceFileName.isEmpty then base
        else
          match mapGet fs.contractsFiles sourceFileName with
          | none => base
          | some content => { base with sourceCode := some content }
  match artifact.buildInfoId with
  | none => withSource
  | some id =>
    if id.isEmpty then withSource
    else
      match mapGet fs.buildInfoFiles id with
      | none => withSource
      | some none => withSource
      | some (some v) => { withSource with buildInfo := some v }

/-- trackDeploymentReceipt, lines 79-132. -/
def trackDeploymentReceipt (fs : ProjectFs) (st : TrackerState) (txHash contractAddress : JStr) : TrackerState :=
  match mapGet st.pendingTxs txHash with
  | none => st
  | some data =>
    if data.isEmpty then st
    else
      let st1 := { st with pendingTxs := mapDelete st.pendingTxs txHash }
      match findMatchingArtifact st.compiledArtifacts data with
      | none => st1
      | some artifact =>
        { st1 with
          trackedDeployments :=
            setKey st1.trackedDeployments (jsLower contractAddress)
              (buildEntry fs artifact contractAddress) }

/-- getArtifacts, lines 149-151: the value of the returned copy.  (Object
identity and mutation of the copy are modelled separately below for the
copy-on-read claim.) -/
def getArtifacts (st : TrackerState) : AddressMap := st.trackedDeployments

/-!
## Compiled-artifact directory scan (deployment-tracker.ts lines 31-64)

The directory tree handed to scanDir is modelled as a tree of named files
(with the JSON.parse outcome of their content) and directories.
-/

mutual
/-- A node of the artifacts/contracts directory tree: a file carries the
JSON.parse outcome of its content (none = parse error); a directory holds
its entries in readdir order. -/
inductive FsTree where
  | file (name : JStr) (content : Option ParsedContent) : FsTree
  | dir (name : JStr) (children : FsForest) : FsTree
inductive FsForest where
  | nil : FsForest
  | cons (head : FsTree) (tail : FsForest) : FsForest
end

/-- The file-name suffix scanDir recognizes, line 44. -/
def jsonExt : JStr := (".json").data

/-- The acceptance test of line 50: the parsed document has truthy
contractName, abi and bytecode fields. -/
def acceptContent (c : ParsedContent) : Bool :=
  truthyOpt c.contractName && truthyOpt c.abi && truthyOpt c.bytecode

/-- The CompiledArtifact built from an accepted document, lines 51-57. -/
def mkCompiled (c : ParsedContent) : CompiledArtifact :=
  { contractName := asStr c.contractName
    sourceName := asStr c.sourceName
    abi := asArr c.abi
    bytecode := asStr c.bytecode
    buildInfoId := asStrOpt c.buildInfoId }

mutual
/-- scanDir, lines 37-64: recursively visit every entry; recurse into
directories; for a file ending in .json, parse it and accept it when the
three required fields are truthy; parse errors skip the file. -/
def scanTree : FsTree → List CompiledArtifact
  | .file name content =>
    if jsEndsWith jsonExt name then
      match content with
      | none => []
      | some c => if acceptContent c then [mkCompiled c] else []
    else []
  | .dir _ children => scanForest children
def scanForest : FsForest → List CompiledArtifact
  | .nil => []
  | .cons t rest => scanTree t ++ scanForest rest
end

mutual
/-- All files of a tree, in visit order, with their parse outcomes. -/
def filesOfTree : FsTree → List (JStr × Option ParsedContent)
  | .file name content => [(name, content)]
  | .dir _ children => filesOfForest children
def filesOfForest : FsForest → List (JStr × Option ParsedContent)
  | .nil => []
  | .cons t rest => filesOfTree t ++ filesOfForest rest
end

/-- The per-file acceptance condition the code implements: a .json file
that parses and whose contractName, abi and bytecode fields are truthy. -/
def acceptedJsonFile (f : JStr × Option ParsedContent) : Bool :=
  jsEndsWith jsonExt f.1 &&
    match f.2 with
    | none => false
    | some c => acceptContent c

/-- Modelled from the spec sentence of claim C5 for comparison with the
code: a .json file that parses as JSON with a non-empty contractName, an
abi field, and a bytecode field (field presence, not truthiness). -/
def specValidFile (f : JStr × Option ParsedContent) : Bool :=
  jsEndsWith jsonExt f.1 &&
    match f.2 with
    | none => false
    | some c =>
      (match c.contractName with
       | some (.vStr s) => !s.isEmpty
       | _ => false) && c.abi.isSome && c.bytecode.isSome

/-!
## Structured (Ignition) deployment records (artifacts.ts)

The chain-scoped deployment directory is modelled by the outcomes of the
file probes the code performs.
-/

/-- The on-disk state loadIgnitionArtifacts can observe. -/
structure IgnitionFs where
  /-- deployed_addresses.json: none = the file does not exist (the record
  root is absent); some none = it exists but JSON.parse throws; some
  (some entries) = its parsed key/value pairs in document order. -/
  deployedAddressesFile : Option (Option (List (JStr × JStr)))
  /-- The artifacts subdirectory: none = missing; otherwise its file names
  with each file's JSON.parse outcome. -/
  artifactFiles : Option (List (JStr × Option ParsedContent))
  /-- Whether the build-info subdirectory exists. -/
  buildInfoDirExists : Bool
  /-- build-info/(id).json: JSON.parse outcome by id. -/
  buildInfoFiles : List (JStr × Option JsVal)
  /-- Whether the project-level contracts directory exists. -/
  contractsDirExists : Bool
  /-- contracts/(file): source text by file name. -/
  contractsFiles : List (JStr × JStr)

/-- findIgnitionDeployment, artifacts.ts lines 24-43: the deployment path
is returned exactly when deployed_addresses.json exists; modelled as that
existence bit. -/
def findIgnitionDeployment (fs : IgnitionFs) : Bool :=
  fs.deployedAddressesFile.isSome

/-- Lines 66-72: map each module-qualified key to its address under the
segment after the first separator; a missing or empty segment is skipped. -/
def buildContractDeployments (entries : List (JStr × JStr)) : List (JStr × JStr) :=
  entries.foldl
    (fun acc kv =>
      match (jsSplit '#' kv.1).get? 1 with
      | none => acc
      | some contractName =>
        if contractName.isEmpty then acc else mapSet acc contractName kv.2)
    []

/-- The ArtifactData built for one ignition artifact file, lines 109-147
(build-info enrichment first, then source-code enrichment). -/
def ignitionEntry (fs : IgnitionFs) (artifact : ParsedContent)
    (contractName deployedAddress : JStr) : ArtifactData :=
  let base : ArtifactData :=
    { abi := asArr artifact.abi
      contractName := contractName
      sourceName := asStrOpt artifact.sourceName
      buildInfoId := asStrOpt artifact.buildInfoId
      sourceCode := none
      buildInfo := none
      deployments := [deployedAddress] }
  let withBuildInfo :=
    match base.buildInfoId with
    | none => base
    | some id =>
      if id.isEmpty then base
      else if !fs.buildInfoDirExists then base
      else
        match mapGet fs.buildInfoFiles id with
        | none => base
        | some none => base
        | some (some v) => { base with buildInfo := some v }
  match withBuildInfo.sourceName with
  | none => withBuildInfo
  | some sourceName =>
    if sourceName.isEmpty then withBuildInfo
    else if !fs.contractsDirExists then withBuildInfo
    else
      match (jsSplit '/' sourceName).getLast? with
      | none => withBuildInfo
      | some fileName =>
        if fileName.isEmpty then withBuildInfo
        else
          match mapGet fs.contractsFiles fileName with
          | none => withBuildInfo
          | some content => { withBuildInfo with sourceCode := some content }

/-- loadArtifacts, artifacts.ts lines 45-154.  The one uncaught failure is
the JSON.parse of deployed_addresses.json (line 61), surfaced as error. -/
def loadArtifacts (fs : IgnitionFs) : Except Unit AddressMap :=
  match fs.deployedAddressesFile with
  | none => .ok []
  | some none => .error ()
  | some (some deployedAddresses) =>
    let contractDeployments := buildContractDeployments deployedAddresses
    match fs.artifactFiles with
    | none => .ok []
    | some files =>
      let artifactFiles := files.filter (fun f => jsEndsWith jsonExt f.1)
      .ok (artifactFiles.foldl
        (fun addressMap f =>
          match f.2 with
          | none => addressMap
          | some artifact =>
            match asStrOpt artifact.contractName with
            | none => addressMap
            | some contractName =>
              if contractName.isEmpty then addressMap
              else
                match mapGet contractDeployments contractName with
                | none => addressMap
                | some deployedAddress =>
                  if deployedAddress.isEmpty then addressMap
                  else
                    setKey addressMap (jsLower deployedAddress)
                      (ignitionEntry fs artifact contractName deployedAddress))
        [])

/-- loadIgnitionArtifacts, artifacts.ts lines 156-181 (the one-time log
has no effect on the returned value and is not modelled). -/
def loadIgnitionArtifacts (fs : IgnitionFs) : Except Unit (Option AddressMap) :=
  if findIgnitionDeployment fs then (loadArtifacts fs).map some
  else .ok none

/-!
## The artifact aggregator (src/unnamed/part_002 lines 144-149)
-/

/-- The object-spread merge of the two AddressMaps: copy the structured
map, then assign every tracked entry over it (tracked wins on collision). -/
def mergeMaps (structured tracked : AddressMap) : AddressMap :=
  tracked.foldl (fun acc kv => setKey acc kv.1 kv.2) structured

/-- The artifactLoader closure: combine the ignition artifacts (null
becomes the empty map) with the tracker's map and return null when the
combination has no keys. -/
def artifactLoader (ignitionArtifacts : Option AddressMap)
    (trackedArtifacts : AddressMap) : Option AddressMap :=
  let combined := mergeMaps (ignitionArtifacts.getD []) trackedArtifacts
  if 0 < (mapKeys combined).length then some combined else none

/-!
## HTML artifact injection (services/webapp.ts lines 203-234)
-/

/-- The closing-script-tag pattern of the escape regex (line 225) and of
the fragment terminator. -/
def scriptPat : JStr := ("</script>").data

/-- The replacement that breaks the tag with a backslash. -/
def scriptRepl : JStr := ("<\\/script>").data

/-- The scan of the global case-insensitive replacement, with a step
budget: at a case-insensitive occurrence of the pattern emit the escaped
replacement and continue after the match, otherwise copy one character.
Every step consumes at least one character, so a budget of the string's
length never runs out (the zero-budget fallback is unreachable then). -/
def scrubGo : Nat → JStr → JStr
  | _, [] => []
  | 0, s => s
  | fuel + 1, c :: cs =>
    if ciStartsWith scriptPat (c :: cs) then
      scriptRepl ++ scrubGo fuel ((c :: cs).drop scriptPat.length)
    else
      c :: scrubGo fuel cs

/-- The global case-insensitive replacement of line 225. -/
def scrub (s : JStr) : JStr := scrubGo s.length s

/-- Lowercase hex digit, as JSON.stringify emits in control escapes. -/
def hexDigit (n : Nat) : Char :=
  if n < 10 then Char.ofNat (48 + n) else Char.ofNat (87 + n)

/-- JSON.stringify escaping of one string character. -/
def jsonEscapeChar (c : Char) : JStr :=
  if c = '"' then ['\\', '"']
  else if c = '\\' then ['\\', '\\']
  else if c = '\x08' then ['\\', 'b']
  else if c = '\t' then ['\\', 't']
  else if c = '\n' then ['\\', 'n']
  else if c = '\x0c' then ['\\', 'f']
  else if c = '\r' then ['\\', 'r']
  else if c.toNat < 32 then
    ['\\', 'u', '0', '0', hexDigit (c.toNat / 16), hexDigit (c.toNat % 16)]
  else [c]

/-- JSON.stringify of a string value. -/
def jsonQuote (s : JStr) : JStr :=
  '"' :: s.flatMap jsonEscapeChar ++ ['"']

/-- JSON.stringify of a passed-through JSON value (an opaque object prints
as an empty object in this model; its contents play no role here). -/
def jsonOfVal : JsVal → JStr
  | .vStr s => jsonQuote s
  | .vNum n => (toString n).data
  | .vBool b => if b then ("true").data else ("false").data
  | .vNull => ("null").data
  | .vArr l => '[' :: List.intercalate [','] (l.attach.map (fun v => jsonOfVal v.1)) ++ [']']
  | .vObjOpaque => ['\x7b', '\x7d']
decreasing_by
  have := List.sizeOf_lt_of_mem v.2
  simp at this ⊢
  omega

/-- One serialized object member. -/
def jsonMember (name value : JStr) : JStr :=
  jsonQuote name ++ ':' :: value

/-- JSON.stringify of one ArtifactData record: members in property
insertion order, absent (undefined) optional fields omitted. -/
def jsonOfEntry (e : ArtifactData) : JStr :=
  let members :=
    [jsonMember (("abi").data) ('[' :: List.intercalate [','] (e.abi.map jsonOfVal) ++ [']']),
     jsonMember (("contractName").data) (jsonQuote e.contractName)]
    ++ (match e.sourceName with
        | none => []
        | some s => [jsonMember (("sourceName").data) (jsonQuote s)])
    ++ (match e.buildInfoId with
        | none => []
        | some s => [jsonMember (("buildInfoId").data) (jsonQuote s)])
    ++ [jsonMember (("deployments").data)
          ('[' :: List.intercalate [','] (e.deployments.map jsonQuote) ++ [']'])]
    ++ (match e.sourceCode with
        | none => []
        | some s => [jsonMember (("sourceCode").data) (jsonQuote s)])
    ++ (match e.buildInfo with
        | none => []
        | some v => [jsonMember (("buildInfo").data) (jsonOfVal v)])
  '\x7b' :: List.intercalate [','] members ++ ['\x7d']

/-- JSON.stringify of the whole AddressMap. -/
def jsonOfMap (m : AddressMap) : JStr :=
  '\x7b' :: List.intercalate [','] (m.map (fun kv => jsonMember kv.1 (jsonOfEntry kv.2))) ++ ['\x7d']

/-- The double encoding of line 222: the serialized map, serialized again
as a string literal. -/
def doubleEncoded (m : AddressMap) : JStr := jsonQuote (jsonOfMap m)

/-- The fixed text of the script fragment before the embedded literal. -/
def scriptTagOpen : JStr :=
  ("<script>try\x7blocalStorage.setItem(\"OPENSCAN_ARTIFACTS_JSON_V1\",").data

/-- The fixed text between the embedded literal and the fragment's closing
script tag. -/
def scriptTagMid : JStr :=
  (")\x7dcatch(e)\x7bconsole.warn(\"[openscan] Failed to inject artifacts:\",e)\x7d").data

/-- The full script fragment of lines 227-231. -/
def scriptTagFor (m : AddressMap) : JStr :=
  scriptTagOpen ++ scrub (doubleEncoded m) ++ scriptTagMid ++ scriptPat

/-- The literal the fragment is inserted after, line 233. -/
def bodyLit : JStr := ("<body>").data

/-- Exact-substring test (contains). -/
def hasSub (p : JStr) : JStr → Bool
  | [] => p.isEmpty
  | c :: rest => p.isPrefixOf (c :: rest) || hasSub p rest

/-- GetSubstitution (ECMA-262) for a string-pattern replace: expand the
dollar patterns of the replacement text; two dollars give one dollar, a
dollar before an ampersand gives the matched text, a dollar before a
backquote (code 96) the text preceding the match, a dollar before a quote
(code 39) the text following the match; any other dollar (including the
digit and angle-bracket forms, which have no captures here) stays literal. -/
def expandDollars (matched before after : JStr) : JStr → JStr
  | [] => []
  | [c] => [c]
  | c :: d :: rest =>
    if c = '$' then
      if d = '$' then '$' :: expandDollars matched before after rest
      else if d = '&' then matched ++ expandDollars matched before after rest
      else if d = Char.ofNat 96 then before ++ expandDollars matched before after rest
      else if d = Char.ofNat 39 then after ++ expandDollars matched before after rest
      else '$' :: expandDollars matched before after (d :: rest)
    else c :: expandDollars matched before after (d :: rest)

/-- Character index of the first occurrence of p, when there is one. -/
def firstIndexOf (p : JStr) : JStr → Option Nat
  | [] => if p.isEmpty then some 0 else none
  | c :: rest =>
    if p.isPrefixOf (c :: rest) then some 0
    else (firstIndexOf p rest).map (fun i => i + 1)

/-- JS String.prototype.replace with a plain string pattern: replace the
first (leftmost) occurrence only, applying GetSubstitution to the
replacement text; no occurrence returns the input. -/
def replaceFirstJS (p repl s : JStr) : JStr :=
  match firstIndexOf p s with
  | none => s
  | some i =>
    let before := s.take i
    let after := s.drop (i + p.length)
    before ++ expandDollars p before after repl ++ after

/-- The number of case-insensitive occurrences of the closing-script-tag
pattern (counted at every start position). -/
def occCount (s : JStr) : Nat :=
  match s with
  | [] => 0
  | c :: cs => (if ciStartsWith scriptPat (c :: cs) then 1 else 0) + occCount cs

/-- No case-insensitive occurrence of the closing-script-tag pattern at
any position of s. -/
def NoOcc (s : JStr) : Prop :=
  ∀ i : Nat, ciStartsWith scriptPat (s.drop i) = false

/-- injectArtifactsScript, webapp.ts lines 203-234.  The artifactLoader
call's outcome is passed in: none = no loader configured; error = the
loader threw (caught at line 211); ok = its return value. -/
def injectArtifactsScript (loaderResult : Option (Except Unit (Option AddressMap)))
    (html : JStr) : JStr :=
  match loaderResult with
  | none => html
  | some (.error _) => html
  | some (.ok none) => html
  | some (.ok (some artifacts)) =>
    if (mapKeys artifacts).length = 0 then html
    else replaceFirstJS bodyLit (bodyLit ++ scriptTagFor artifacts) html

/-!
## Object identity for getArtifacts (copy-on-read, lines 149-151)

The spread copy returns a fresh top-level object whose entries still
reference the same ArtifactData objects.  A small heap makes the aliasing
observable: map objects bind keys to references into a table of
ArtifactData objects.
-/

/-- A heap of JS objects: ArtifactData objects and AddressMap objects
(binding keys to ArtifactData references), with a fresh-reference counter. -/
structure JsHeap where
  adObjs : List (Nat × ArtifactData)
  mapObjs : List (Nat × List (JStr × Nat))
  next : Nat

/-- Read a map object's entries (a dangling reference reads as empty). -/
def readMapObj (h : JsHeap) (r : Nat) : List (JStr × Nat) :=
  (mapGet h.mapObjs r).getD []

/-- Read an ArtifactData object. -/
def readADObj (h : JsHeap) (r : Nat) : Option ArtifactData :=
  mapGet h.adObjs r

/-- Mutate an ArtifactData object in place (what a caller does when it
assigns through an entry of a map it holds). -/
def writeADObj (h : JsHeap) (r : Nat) (v : ArtifactData) : JsHeap :=
  { h with adObjs := mapSet h.adObjs r v }

/-- Mutate a map object's own entries in place (add, remove or rebind
properties of the object itself). -/
def writeMapObj (h : JsHeap) (r : Nat) (entries : List (JStr × Nat)) : JsHeap :=
  { h with mapObjs := mapSet h.mapObjs r entries }

/-- Allocate a fresh map object. -/
def allocMapObj (h : JsHeap) (entries : List (JStr × Nat)) : Nat × JsHeap :=
  (h.next, { h with mapObjs := mapSet h.mapObjs h.next entries, next := h.next + 1 })

/-- getArtifacts under object identity: return a fresh object carrying the
same entries as the tracked map (the spread copies key/reference pairs,
not the referenced ArtifactData objects). -/
def getArtifactsRef (h : JsHeap) (trackedRef : Nat) : Nat × JsHeap :=
  allocMapObj h (readMapObj h trackedRef)

/-- The value a caller observes from one getArtifacts call: each key with
the current contents of the ArtifactData object it references. -/
def observeGetArtifacts (h : JsHeap) (trackedRef : Nat) : List (JStr × Option ArtifactData) :=
  let res := getArtifactsRef h trackedRef
  (readMapObj res.2 res.1).map (fun kv => (kv.1, readADObj res.2 kv.2))

/-- The contribution of one visited file to the scan result (the file
branch of scanTree). -/
def emitFile (f : JStr × Option ParsedContent) : List CompiledArtifact :=
  if jsEndsWith jsonExt f.1 then
    match f.2 with
    | none => []
    | some c => if acceptContent c then [mkCompiled c] else []
  else []

/-!
## Concrete fixtures used by witnesses and counterexamples
-/

/-- An ArtifactData with only a contract name, for small examples. -/
def mkSimpleEntry (name : JStr) : ArtifactData :=
  { abi := [], contractName := name, sourceName := none, buildInfoId := none,
    sourceCode := none, buildInfo := none, deployments := [] }

def wArtifact : CompiledArtifact :=
  { contractName := ("Counter").data, sourceName := ("contracts/Counter.sol").data,
    abi := [], bytecode := ("0x6001").data, buildInfoId := none }

def wProjectFs : ProjectFs := { contractsFiles := [], buildInfoFiles := [] }

def wTracker : TrackerState :=
  { compiledArtifacts := [wArtifact], trackedDeployments := [], pendingTxs := [] }

def wTx : JStr := ("0xhash1").data

def wData : JStr := ("0x6001DEADBEEF").data

def wAddr : JStr := ("0xAbCd").data

def wKeyA : JStr := ("0xa").data

def wKeyB : JStr := ("0xb").data

def wMapS : AddressMap := [(wKeyA, mkSimpleEntry (("X").data))]

def wMapT : AddressMap :=
  [(wKeyA, mkSimpleEntry (("Y").data)), (wKeyB, mkSimpleEntry (("Z").data))]

def wIgnitionEmpty : IgnitionFs :=
  { deployedAddressesFile := some (some []), artifactFiles := some [],
    buildInfoDirExists := false, buildInfoFiles := [],
    contractsDirExists := false, contractsFiles := [] }

/-- A .json artifact file that parses and has all three fields present
(contractName non-empty) but a falsy abi (the number 0) and a falsy
bytecode (the empty string). -/
def c5File : JStr × Option ParsedContent :=
  (("Bad.json").data,
   some { contractName := some (.vStr (("C").data)), sourceName := none,
          abi := some (.vNum 0), bytecode := some (.vStr []), buildInfoId := none })

def c5Tree : FsTree := .dir (("contracts").data) (.cons (.file c5File.1 c5File.2) .nil)

def wInjectMap : AddressMap :=
  [((("0xab").data),
    { abi := [], contractName := ("C").data, sourceName := none, buildInfoId := none,
      sourceCode := some (("x</script>y").data), buildInfo := none,
      deployments := [("0xAB").data] })]

def wHtmlPre : JStr := ("<html><head></head>").data

def wHtmlPost : JStr := ("<p>hi</p></body></html>").data

def wHtml : JStr := wHtmlPre ++ bodyLit ++ wHtmlPost

def wHtmlNoBody : JStr := ("<html><body class=\"x\"><p>hi</p></body></html>").data

def cexEntryA : ArtifactData := mkSimpleEntry (("A").data)

def cexEntryB : ArtifactData := mkSimpleEntry (("B").data)

def cexHeap : JsHeap :=
  { adObjs := [(0, cexEntryA)], mapObjs := [(1, [(wKeyA, 0)])], next := 2 }

/-- A map whose sourceCode contains a closing script tag followed by a
dollar-quote sequence (the replacement pattern that expands to the page
text after the match). -/
def mC9 : AddressMap :=
  [((("0xab").data),
    { abi := [], contractName := ("C").data, sourceName := none, buildInfoId := none,
      sourceCode := some ((("</script>$").data) ++ [Char.ofNat 39]), buildInfo := none,
      deployments := [("0xAB").data] })]

/-- A page whose body tag is followed by a real closing script tag. -/
def htmlC9 : JStr := ("<body>k</script>").data

/-- A map whose sourceCode contains a dollar-ampersand sequence (the
replacement pattern that expands to the matched text). -/
def mDollar : AddressMap :=
  [((("0xab").data),
    { abi := [], contractName := ("C").data, sourceName := none, buildInfoId := none,
      sourceCode := some (("$&").data), buildInfo := none,
      deployments := [("0xAB").data] })]

def htmlDollar : JStr := ("<body>z").data

theorem findMatchLoop_eq_find? (d : JStr) (l : List CompiledArtifact) :
    findMatchLoop (jsLower d) l = l.find? (matchesCreationData d) := by
  induction l with
  | nil => rfl
  | cons a rest ih =>
    simp only [findMatchLoop, matchesCreationData, List.find?]
    by_cases h : (decide (2 < (jsLower a.bytecode).length) && (jsLower a.bytecode).isPrefixOf (jsLower d)) = true
    · simp [h]
    · simp only [Bool.not_eq_true] at h
      simp [h, ih]

theorem mapGet_mapSet_self {K A : Type} [DecidableEq K] (m : List (K × A)) (k : K) (v : A) :
    mapGet (mapSet m k v) k = some v := by
  induction m with
  | nil => simp [mapGet, mapSet]
  | cons p rest ih =>
    obtain ⟨k1, v1⟩ := p
    by_cases h : k1 = k
    · simp [mapGet, mapSet, h]
    · simp [mapGet, mapSet, h, ih]

theorem mapDelete_cons {K A : Type} [DecidableEq K] (k1 : K) (v1 : A) (l : List (K × A)) (k : K) :
    mapDelete ((k1, v1) :: l) k
      = if k1 = k then mapDelete l k else (k1, v1) :: mapDelete l k := by
  by_cases h : k1 = k <;> simp [mapDelete, List.filter_cons, h]

theorem mapGet_mapDelete_self {K A : Type} [DecidableEq K] (m : List (K × A)) (k : K) :
    mapGet (mapDelete m k) k = none := by
  induction m with
  | nil => rfl
  | cons p rest ih =>
    obtain ⟨k1, v1⟩ := p
    rw [mapDelete_cons]
    by_cases h : k1 = k
    · simpa [h] using ih
    · simpa [mapGet, h] using ih

theorem mapDelete_mapSet_self {K A : Type} [DecidableEq K] (m : List (K × A)) (k : K) (v : A) :
    mapDelete (mapSet m k v) k = mapDelete m k := by
  induction m with
  | nil => simp [mapDelete, mapSet]
  | cons p rest ih =>
    obtain ⟨k1, v1⟩ := p
    by_cases h : k1 = k
    · simp only [mapSet, h, if_pos rfl, mapDelete_cons, if_pos h]
      simp [mapDelete_cons]
    · rw [show mapSet ((k1, v1) :: rest) k v = (k1, v1) :: mapSet rest k v from by
        simp [mapSet, h]]
      rw [mapDelete_cons, mapDelete_cons, if_neg h, if_neg h, ih]

theorem lookupKey_setKey_self (m : AddressMap) (k : JStr) (v : ArtifactData) :
    lookupKey (setKey m k v) k = some v := by
  induction m with
  | nil => simp [lookupKey, setKey]
  | cons p rest ih =>
    obtain ⟨k1, v1⟩ := p
    by_cases h : k1 = k
    · simp [lookupKey, setKey, h]
    · simp [lookupKey, setKey, h, ih]

theorem lookupKey_setKey_ne (m : AddressMap) (k k' : JStr) (v : ArtifactData)
    (h : k' ≠ k) : lookupKey (setKey m k v) k' = lookupKey m k' := by
  induction m with
  | nil => simp [lookupKey, setKey, Ne.symm h]
  | cons p rest ih =>
    obtain ⟨k1, v1⟩ := p
    by_cases hk : k1 = k
    · subst hk
      simp [lookupKey, setKey, Ne.symm h]
    · by_cases hk' : k1 = k'
      · simp [lookupKey, setKey, hk, hk', h]
      · simp [lookupKey, setKey, hk, hk', ih]

theorem setKey_of_lookup_none (m : AddressMap) (k : JStr) (v : ArtifactData)
    (h : lookupKey m k = none) : setKey m k v = m ++ [(k, v)] := by
  induction m with
  | nil => rfl
  | cons p rest ih =>
    obtain ⟨k1, v1⟩ := p
    by_cases hk : k1 = k
    · simp [lookupKey, hk] at h
    · simp only [lookupKey, hk, if_false] at h
      simp [setKey, hk, ih h]

/-!
## Case-insensitive prefix lemmas
-/

theorem ciStartsWith_nil_pat (s : JStr) : ciStartsWith [] s = true := rfl

theorem ciStartsWith_length_le (p s : JStr) (h : ciStartsWith p s = true) :
    p.length ≤ s.length := by
  induction p generalizing s with
  | nil => simp
  | cons a ps ih =>
    cases s with
    | nil => simp [ciStartsWith] at h
    | cons c cs =>
      simp only [ciStartsWith, Bool.and_eq_true] at h
      simpa [List.length_cons] using ih cs h.2

theorem ciStartsWith_append (p a t : JStr) :
    ciStartsWith p (a ++ t)
      = (ciStartsWith (p.take a.length) a && ciStartsWith (p.drop a.length) t) := by
  induction a generalizing p with
  | nil => simp [ciStartsWith]
  | cons c a' ih =>
    cases p with
    | nil => simp [ciStartsWith]
    | cons q p' =>
      simp only [List.cons_append, ciStartsWith, List.length_cons, List.take_succ_cons,
        List.drop_succ_cons, Bool.and_assoc]
      rw [show a'.append t = a' ++ t from rfl, ih p']

theorem ciStartsWith_append_of_le (p a t : JStr) (h : p.length ≤ a.length) :
    ciStartsWith p (a ++ t) = ciStartsWith p a := by
  rw [ciStartsWith_append, List.take_of_length_le h, List.drop_eq_nil_of_le h,
    ciStartsWith_nil_pat, Bool.and_true]

theorem ciStartsWith_append_false (p a t : JStr)
    (h : ciStartsWith (p.take a.length) a = false) :
    ciStartsWith p (a ++ t) = false := by
  rw [ciStartsWith_append, h, Bool.false_and]

theorem ciStartsWith_take (p t : JStr) (n : Nat) (h : p.length ≤ n) :
    ciStartsWith p (t.take n) = ciStartsWith p t := by
  by_cases hl : t.length ≤ n
  · rw [List.take_of_length_le hl]
  · push_neg at hl
    conv_rhs => rw [show t = t.take n ++ t.drop n from (List.take_append_drop n t).symm]
    rw [ciStartsWith_append_of_le]
    simp only [List.length_take]
    exact le_min h (by omega)

/-!
## Claim C1 (bytecode prefix matching)
-/

/-- C1: findMatchingArtifact returns the first artifact in scan order whose
bytecode, compared case-insensitively, is a literal prefix of the creation
data and is longer than 2 characters; a candidate whose bytecode is
exactly the bare hex prefix never matches; creation data equal to a
candidate's bytecode followed by extra hex still matches; and if no
candidate satisfies the condition, no match is returned. -/
theorem c1_findMatchingArtifact (arts : List CompiledArtifact) (data : JStr) :
    findMatchingArtifact arts data = arts.find? (matchesCreationData data)
    ∧ (∀ a : CompiledArtifact, a.bytecode = (("0x").data) → matchesCreationData data a = false)
    ∧ (∀ (a : CompiledArtifact) (extra : JStr), 2 < a.bytecode.length →
        matchesCreationData (a.bytecode ++ extra) a = true)
    ∧ ((∀ a ∈ arts, matchesCreationData data a = false) → findMatchingArtifact arts data = none) := by
  refine ⟨findMatchLoop_eq_find? data arts, ?_, ?_, ?_⟩
  · intro a ha
    simp only [matchesCreationData, jsLower, ha, List.length_map]
    rw [show (((("0x").data) : JStr).length = 2) from rfl]
    simp
  · intro a extra hlen
    simp only [matchesCreationData, jsLower, List.map_append, Bool.and_eq_true]
    constructor
    · simpa [List.length_map] using hlen
    · exact List.isPrefixOf_iff_prefix.mpr (List.prefix_append _ _)
  · intro h
    unfold findMatchingArtifact
    rw [findMatchLoop_eq_find? data arts]
    exact List.find?_eq_none.mpr (fun x hx => by simp [h x hx])

/-- Witness for C1: the fixture artifact with bytecode 0x6001 matches its
own bytecode followed by extra hex. -/
theorem c1_witness :
    matchesCreationData (wArtifact.bytecode ++ (("deadbeef").data)) wArtifact = true :=
  (c1_findMatchingArtifact [] []).2.2.1 wArtifact (("deadbeef").data) (by decide)

/-!
## Claim C7 (receipt for an unknown transaction hash)
-/

/-- C7: a receipt for a transaction hash that is not pending leaves the
tracker state (tracked deployments and pending map) unchanged and raises
no error. -/
theorem c7_unknown_receipt (fs : ProjectFs) (st : TrackerState)
    (txHash contractAddress : JStr) (h : mapGet st.pendingTxs txHash = none) :
    trackDeploymentReceipt fs st txHash contractAddress = st := by
  simp [trackDeploymentReceipt, h]

/-- Witness for C7: a receipt on the fixture tracker (empty pending map)
is a no-op. -/
theorem c7_witness : trackDeploymentReceipt wProjectFs wTracker wTx wAddr = wTracker :=
  c7_unknown_receipt wProjectFs wTracker wTx wAddr rfl

/-!
## Claim C2 (send then receipt with a unique match)
-/

theorem buildEntry_deployments (fs : ProjectFs) (artifact : CompiledArtifact) (ca : JStr) :
    (buildEntry fs artifact ca).deployments = [ca] := by
  unfold buildEntry
  dsimp only
  repeat' split
  all_goals rfl

theorem matches_data_nonempty (data : JStr) (a : CompiledArtifact)
    (h : matchesCreationData data a = true) : data.isEmpty = false := by
  simp only [matchesCreationData, Bool.and_eq_true, decide_eq_true_eq] at h
  obtain ⟨h1, h2⟩ := h
  have hle := List.IsPrefix.length_le (List.isPrefixOf_iff_prefix.mp h2)
  simp only [jsLower, List.length_map] at h1 hle
  cases data with
  | nil =>
    simp only [List.length_nil] at hle
    omega
  | cons c cs => rfl

/-- C2: trackSendTransaction followed by trackDeploymentReceipt, with
creation data matching exactly one compiled artifact, adds exactly one
tracked entry, keyed by the lowercased deployed address, whose deployments
field is the one-element list of the address, and removes the pending
entry for the transaction hash. -/
theorem c2_tracked (st : TrackerState) (fs : ProjectFs) (txHash data addr : JStr)
    (hmatch : st.compiledArtifacts.countP (matchesCreationData data) = 1)
    (hfresh : lookupKey st.trackedDeployments (jsLower addr) = none) :
    ∃ e : ArtifactData,
      getArtifacts (trackDeploymentReceipt fs (trackSendTransaction st txHash data) txHash addr)
        = st.trackedDeployments ++ [(jsLower addr, e)]
      ∧ e.deployments = [addr]
      ∧ mapGet (trackDeploymentReceipt fs (trackSendTransaction st txHash data) txHash addr).pendingTxs
          txHash = none := by
  have hpos : 0 < st.compiledArtifacts.countP (matchesCreationData data) := by omega
  have hex : ∃ a ∈ st.compiledArtifacts, matchesCreationData data a :=
    List.countP_pos_iff.mp hpos
  have hsome : (st.compiledArtifacts.find? (matchesCreationData data)).isSome :=
    List.find?_isSome.mpr hex
  obtain ⟨a, hfind⟩ := Option.isSome_iff_exists.mp hsome
  have hpa : matchesCreationData data a = true := List.find?_some hfind
  have hne : data.isEmpty = false := matches_data_nonempty data a hpa
  have hfa : findMatchingArtifact st.compiledArtifacts data = some a := by
    unfold findMatchingArtifact
    rw [findMatchLoop_eq_find? data]
    exact hfind
  refine ⟨buildEntry fs a addr, ?_, buildEntry_deployments fs a addr, ?_⟩
  · unfold getArtifacts trackDeploymentReceipt trackSendTransaction
    simp only [mapGet_mapSet_self, hne, hfa]
    exact setKey_of_lookup_none _ _ _ hfresh
  · unfold trackDeploymentReceipt trackSendTransaction
    simp only [mapGet_mapSet_self, hne, hfa]
    rw [mapDelete_mapSet_self]
    exact mapGet_mapDelete_self _ _

/-- Witness for C2 on the fixture tracker: one artifact, matching creation
data 0x6001DEADBEEF, deployed at 0xAbCd. -/
theorem c2_witness :
    ∃ e : ArtifactData,
      getArtifacts (trackDeploymentReceipt wProjectFs (trackSendTransaction wTracker wTx wData) wTx wAddr)
        = wTracker.trackedDeployments ++ [(jsLower wAddr, e)]
      ∧ e.deployments = [wAddr]
      ∧ mapGet (trackDeploymentReceipt wProjectFs (trackSendTransaction wTracker wTx wData) wTx wAddr).pendingTxs
          wTx = none :=
  c2_tracked wTracker wProjectFs wTx wData wAddr (by decide) rfl

/-!
## Claims C3 and C4 (the artifact aggregator)
-/

theorem lookupKey_eq_none_of_not_mem (m : AddressMap) (k : JStr)
    (h : k ∉ mapKeys m) : lookupKey m k = none := by
  induction m with
  | nil => rfl
  | cons p rest ih =>
    obtain ⟨k1, v1⟩ := p
    simp only [mapKeys, List.map_cons, List.mem_cons, not_or] at h
    rw [lookupKey, if_neg (fun hh => h.1 hh.symm)]
    exact ih h.2

/-- C3: the aggregator's merge binds every key present in the tracked map
to its tracked entry (tracked wins on collision) and every other key to
its structured entry. -/
theorem c3_merge (s t : AddressMap) (ht : (mapKeys t).Nodup) (k : JStr) :
    lookupKey (mergeMaps s t) k
      = match lookupKey t k with
        | some v => some v
        | none => lookupKey s k := by
  induction t generalizing s with
  | nil => simp [mergeMaps, lookupKey]
  | cons p t' ih =>
    obtain ⟨k1, v1⟩ := p
    simp only [mapKeys, List.map_cons, List.nodup_cons] at ht
    have hmerge : mergeMaps s ((k1, v1) :: t') = mergeMaps (setKey s k1 v1) t' := rfl
    rw [hmerge, ih (setKey s k1 v1) ht.2]
    by_cases hk : k1 = k
    · subst hk
      rw [lookupKey_eq_none_of_not_mem t' k1 ht.1]
      simp [lookupKey, lookupKey_setKey_self]
    · simp only [lookupKey, if_neg hk]
      cases lookupKey t' k with
      | none => simp [lookupKey_setKey_ne s k1 k v1 (Ne.symm hk)]
      | some v => rfl

/-- Witness for C3: merging the one-entry structured map with the
two-entry tracked map of the fixtures; the shared key is bound to the
tracked entry and the merge is exactly the tracked map. -/
theorem c3_witness :
    lookupKey (mergeMaps wMapS wMapT) wKeyA = some (mkSimpleEntry (("Y").data))
    ∧ mergeMaps wMapS wMapT = wMapT := by
  constructor
  · rw [c3_merge wMapS wMapT (by decide) wKeyA]
    rfl
  · rfl

/-- C4: the aggregator returns null exactly when the merge of the
structured (null means empty) and tracked maps is empty, and the merged
map itself otherwise; in particular null structured input with an empty
tracked map yields null. -/
theorem c4_artifactLoader (s : Option AddressMap) (t : AddressMap) :
    (mergeMaps (s.getD []) t = [] → artifactLoader s t = none)
    ∧ (mergeMaps (s.getD []) t ≠ [] →
        artifactLoader s t = some (mergeMaps (s.getD []) t))
    ∧ artifactLoader none [] = none := by
  refine ⟨?_, ?_, rfl⟩
  · intro h
    unfold artifactLoader
    simp [h, mapKeys]
  · intro h
    have h0 : 0 < (mapKeys (mergeMaps (s.getD []) t)).length := by
      cases hm : mergeMaps (s.getD []) t with
      | nil => exact absurd hm h
      | cons a l => simp [mapKeys]
    unfold artifactLoader
    simp [h0]

/-- Witness for C4: the null structured input with an empty tracked map
yields null. -/
theorem c4_witness : artifactLoader none [] = none :=
  (c4_artifactLoader none []).1 rfl

/-!
## Claim C6 (null versus empty for the structured deployment record)
-/

theorem loadArtifacts_ok (fs : IgnitionFs) (entries : List (JStr × JStr))
    (hf : fs.deployedAddressesFile = some (some entries)) :
    ∃ m : AddressMap, loadArtifacts fs = Except.ok m := by
  unfold loadArtifacts
  rw [hf]
  cases fs.artifactFiles with
  | none => exact ⟨_, rfl⟩
  | some files => exact ⟨_, rfl⟩

/-- C6: loadIgnitionArtifacts returns null exactly when the structured
deployment record (its deployed_addresses.json) does not exist, and a
non-null (possibly empty) AddressMap whenever it does exist (and parses),
so callers can distinguish the two states. -/
theorem c6_loadIgnitionArtifacts (fs : IgnitionFs)
    (hp : fs.deployedAddressesFile ≠ some none) :
    (loadIgnitionArtifacts fs = Except.ok none ↔ fs.deployedAddressesFile = none)
    ∧ (fs.deployedAddressesFile ≠ none →
        ∃ m : AddressMap, loadIgnitionArtifacts fs = Except.ok (some m)) := by
  cases hf : fs.deployedAddressesFile with
  | none =>
    refine ⟨?_, fun h => absurd rfl h⟩
    simp [loadIgnitionArtifacts, findIgnitionDeployment, hf]
  | some inner =>
    cases inner with
    | none => exact absurd hf hp
    | some entries =>
      obtain ⟨m, hm⟩ := loadArtifacts_ok fs entries hf
      have hload : loadIgnitionArtifacts fs = Except.ok (some m) := by
        unfold loadIgnitionArtifacts
        rw [if_pos (by simp [findIgnitionDeployment, hf]), hm]
        rfl
      constructor
      · rw [hload]
        constructor
        · intro h
          exact absurd h (by simp)
        · intro h
          exact absurd h (by simp)
      · exact fun _ => ⟨m, hload⟩

/-- Witness for C6: a fixture whose deployed_addresses.json exists with no
entries yields a present (empty) map, not null. -/
theorem c6_witness :
    ∃ m : AddressMap, loadIgnitionArtifacts wIgnitionEmpty = Except.ok (some m) :=
  (c6_loadIgnitionArtifacts wIgnitionEmpty (by decide)).2 (by decide)

/-!
## Claim C5 (directory scan of compiled artifacts)
-/

theorem emitFile_length (name : JStr) (content : Option ParsedContent) :
    (emitFile (name, content)).length = if acceptedJsonFile (name, content) then 1 else 0 := by
  by_cases h : jsEndsWith jsonExt name
  · cases content with
    | none => simp [emitFile, acceptedJsonFile, h]
    | some c =>
      by_cases hc : acceptContent c
      · simp [emitFile, acceptedJsonFile, h, hc]
      · simp [emitFile, acceptedJsonFile, h, hc]
  · simp [emitFile, acceptedJsonFile, h]

mutual
theorem scanTree_eq_emit (t : FsTree) : scanTree t = (filesOfTree t).flatMap emitFile := by
  cases t with
  | file name content => simp [scanTree, filesOfTree, emitFile]
  | dir name children => simp [scanTree, filesOfTree, scanForest_eq_emit children]
theorem scanForest_eq_emit (f : FsForest) : scanForest f = (filesOfForest f).flatMap emitFile := by
  cases f with
  | nil => rfl
  | cons t rest =>
    simp [scanForest, filesOfForest, scanTree_eq_emit t, scanForest_eq_emit rest]
end

theorem flatMap_emit_length (l : List (JStr × Option ParsedContent)) :
    (l.flatMap emitFile).length = l.countP acceptedJsonFile := by
  induction l with
  | nil => rfl
  | cons f rest ih =>
    obtain ⟨name, content⟩ := f
    simp only [List.flatMap_cons, List.length_append, List.countP_cons, ih,
      emitFile_length]
    by_cases h : acceptedJsonFile (name, content) <;> simp [h] <;> omega

/-- C5 (amended): the scan yields exactly one entry per visited .json file
whose content parses and has truthy contractName, abi and bytecode fields
(JS truthiness: a non-empty string for contractName and bytecode, any
non-falsy abi value); every other file is skipped and the scan is a total
function (no error propagates). -/
theorem c5_scan_count (t : FsTree) :
    (scanTree t).length = (filesOfTree t).countP acceptedJsonFile := by
  rw [scanTree_eq_emit, flatMap_emit_length]

/-- Counterexample to C5 as stated: a directory with one .json file that
parses and has a non-empty contractName, an abi field and a bytecode field
(so the claim counts N = 1 valid artifact files and M = 0), yet the scan
produces 0 entries, because the abi value 0 and the empty bytecode string
are falsy and line 50 of deployment-tracker.ts tests truthiness, not field
presence. -/
theorem c5_counterexample :
    (filesOfTree c5Tree).countP specValidFile = 1 ∧ (scanTree c5Tree).length = 0 := by
  constructor
  · rfl
  · rfl

/-!
## Claim C8 (getArtifacts copy-on-read)
-/

theorem mapGet_mapSet_ne {K A : Type} [DecidableEq K] (m : List (K × A)) (k k' : K)
    (v : A) (h : k' ≠ k) : mapGet (mapSet m k v) k' = mapGet m k' := by
  induction m with
  | nil => simp [mapGet, mapSet, Ne.symm h]
  | cons p rest ih =>
    obtain ⟨k1, v1⟩ := p
    by_cases hk : k1 = k
    · subst hk
      simp [mapGet, mapSet, Ne.symm h]
    · by_cases hk' : k1 = k'
      · simp [mapGet, mapSet, hk, hk', h]
      · simp [mapGet, mapSet, hk, hk', ih]

/-- Counterexample to C8 as stated: on a heap with one tracked artifact
object (reference 0, contract name A) and the tracker map (reference 1),
getArtifacts returns a fresh map object whose entry still references
object 0; a caller that mutates that artifact object, reached through the
returned map, changes what every subsequent getArtifacts call observes,
because the spread at line 150 copies only the top level of the map. -/
theorem c8_counterexample :
    observeGetArtifacts cexHeap 1 = [(wKeyA, some cexEntryA)]
    ∧ readMapObj (getArtifactsRef cexHeap 1).2 (getArtifactsRef cexHeap 1).1 = [(wKeyA, 0)]
    ∧ observeGetArtifacts (writeADObj (getArtifactsRef cexHeap 1).2 0 cexEntryB) 1
        = [(wKeyA, some cexEntryB)]
    ∧ cexEntryB ≠ cexEntryA := by
  refine ⟨rfl, rfl, rfl, ?_⟩
  intro hEq
  have hname : cexEntryB.contractName = cexEntryA.contractName :=
    congrArg ArtifactData.contractName hEq
  rw [show cexEntryB.contractName = (("B").data) from rfl,
    show cexEntryA.contractName = (("A").data) from rfl] at hname
  exact absurd hname (by decide)

/-- C8 (amended): getArtifacts returns a fresh top-level object, so
mutations of the returned map object itself (adding, removing or rebinding
its entries) leave the tracker's map and the result of every subsequent
getArtifacts call unchanged; the ArtifactData objects reachable through
the entries are shared, not copied. -/
theorem c8_amended (h : JsHeap) (trackedRef : Nat) (htr : trackedRef < h.next)
    (newEntries : List (JStr × Nat)) :
    (getArtifactsRef h trackedRef).1 ≠ trackedRef
    ∧ readMapObj (writeMapObj (getArtifactsRef h trackedRef).2
        (getArtifactsRef h trackedRef).1 newEntries) trackedRef = readMapObj h trackedRef
    ∧ observeGetArtifacts (writeMapObj (getArtifactsRef h trackedRef).2
        (getArtifactsRef h trackedRef).1 newEntries) trackedRef
      = observeGetArtifacts h trackedRef := by
  have hne : trackedRef ≠ h.next := by omega
  refine ⟨by simpa [getArtifactsRef, allocMapObj] using (by omega : h.next ≠ trackedRef), ?_, ?_⟩
  · simp only [getArtifactsRef, allocMapObj, writeMapObj, readMapObj]
    rw [mapGet_mapSet_ne _ _ _ _ hne, mapGet_mapSet_ne _ _ _ _ hne]
  · simp only [observeGetArtifacts, getArtifactsRef, allocMapObj, writeMapObj,
      readMapObj, readADObj]
    simp only [mapGet_mapSet_ne _ _ _ _ hne, mapGet_mapSet_self]

/-- Witness for C8 (amended) on the counterexample heap: emptying the
returned map object does not change the tracker's map or a later call's
observation. -/
theorem c8_witness :
    (getArtifactsRef cexHeap 1).1 ≠ 1
    ∧ readMapObj (writeMapObj (getArtifactsRef cexHeap 1).2
        (getArtifactsRef cexHeap 1).1 []) 1 = readMapObj cexHeap 1
    ∧ observeGetArtifacts (writeMapObj (getArtifactsRef cexHeap 1).2
        (getArtifactsRef cexHeap 1).1 []) 1
      = observeGetArtifacts cexHeap 1 :=
  c8_amended cexHeap 1 (by decide) []

/-!
## Claim C10 (insertion at the body-tag literal)
-/

theorem firstIndexOf_eq_none (p s : JStr) (hp : p ≠ [])
    (h : hasSub p s = false) : firstIndexOf p s = none := by
  induction s with
  | nil =>
    cases p with
    | nil => exact absurd rfl hp
    | cons a as => rfl
  | cons c rest ih =>
    simp only [hasSub, Bool.or_eq_false_iff] at h
    simp only [firstIndexOf, h.1, Bool.false_eq_true, if_false, ih h.2]
    rfl

theorem firstIndexOf_decomp (p pre post : JStr)
    (h : ∀ i, i < pre.length → p.isPrefixOf ((pre ++ p ++ post).drop i) = false) :
    firstIndexOf p (pre ++ p ++ post) = some pre.length := by
  induction pre with
  | nil =>
    have hpre : p.isPrefixOf (p ++ post) = true :=
      List.isPrefixOf_iff_prefix.mpr (List.prefix_append _ _)
    simp only [List.nil_append, List.length_nil]
    cases hpp : p ++ post with
    | nil =>
      have hp : p = [] := (List.append_eq_nil.mp hpp).1
      subst hp
      rfl
    | cons c cs =>
      have hP : p.isPrefixOf (c :: cs) = true := hpp ▸ hpre
      simp [firstIndexOf, hP]
  | cons c pre' ih =>
    have h0 := h 0 (by simp)
    rw [List.drop_zero] at h0
    simp only [List.cons_append] at h0 ⊢
    rw [firstIndexOf, h0]
    simp only [Bool.false_eq_true, if_false]
    rw [ih (fun i hi => by
      have := h (i + 1) (by simp only [List.length_cons]; omega)
      simpa only [List.cons_append, List.drop_succ_cons] using this)]
    simp [List.length_cons]

theorem replaceFirstJS_decomp (p repl pre post : JStr)
    (h : ∀ i, i < pre.length → p.isPrefixOf ((pre ++ p ++ post).drop i) = false) :
    replaceFirstJS p repl (pre ++ p ++ post)
      = pre ++ expandDollars p pre post repl ++ post := by
  unfold replaceFirstJS
  rw [firstIndexOf_decomp p pre post h]
  have htake : (pre ++ p ++ post).take pre.length = pre := by
    rw [List.append_assoc]
    exact List.take_left pre (p ++ post)
  have hdrop : (pre ++ p ++ post).drop (pre.length + p.length) = post := by
    rw [show pre.length + p.length = (pre ++ p).length from (List.length_append _ _).symm]
    exact List.drop_left _ _
  simp only [htake, hdrop]

theorem expandDollars_no_dollar (matched before after repl : JStr)
    (h : repl.all (fun c => c != ('$' : Char)) = true) :
    expandDollars matched before after repl = repl := by
  induction repl with
  | nil => rfl
  | cons c tail ih =>
    cases tail with
    | nil => rfl
    | cons d rest =>
      simp only [List.all_cons, Bool.and_eq_true] at h
      have hc : ¬(c = '$') := by simpa using h.1
      simp only [expandDollars, if_neg hc]
      refine congrArg (List.cons c) (ih ?_)
      simp only [List.all_cons, Bool.and_eq_true]
      exact h.2

theorem inject_eq_replace (m : AddressMap) (html : JStr) (hm : m ≠ []) :
    injectArtifactsScript (some (Except.ok (some m))) html
      = replaceFirstJS bodyLit (bodyLit ++ scriptTagFor m) html := by
  have hlen : ¬((mapKeys m).length = 0) := by
    cases m with
    | nil => exact absurd rfl hm
    | cons a l => simp [mapKeys]
  simp [injectArtifactsScript, hlen]

theorem inject_decomp (m : AddressMap) (html pre post : JStr) (hm : m ≠ [])
    (hdecomp : html = pre ++ bodyLit ++ post)
    (hno : ∀ i, i < pre.length → bodyLit.isPrefixOf (html.drop i) = false) :
    injectArtifactsScript (some (Except.ok (some m))) html
      = pre ++ expandDollars bodyLit pre post (bodyLit ++ scriptTagFor m) ++ post := by
  rw [inject_eq_replace m html hm, hdecomp]
  exact replaceFirstJS_decomp bodyLit _ pre post
    (fun i hi => by rw [← hdecomp]; exact hno i hi)

theorem inject_verbatim (m : AddressMap) (html pre post : JStr) (hm : m ≠ [])
    (hdecomp : html = pre ++ bodyLit ++ post)
    (hno : ∀ i, i < pre.length → bodyLit.isPrefixOf (html.drop i) = false)
    (hd : (scriptTagFor m).all (fun c => c != ('$' : Char)) = true) :
    injectArtifactsScript (some (Except.ok (some m))) html
      = pre ++ bodyLit ++ scriptTagFor m ++ post := by
  rw [inject_decomp m html pre post hm hdecomp hno]
  rw [expandDollars_no_dollar _ _ _ _ (by
    rw [List.all_append, hd, Bool.and_true]
    decide)]
  simp [List.append_assoc]

set_option maxRecDepth 100000 in
/-- Counterexample to C10 as stated: for the fixture map whose sourceCode
is a dollar-ampersand sequence, the emitted page differs from the page
with the built fragment inserted verbatim after the body tag:
String.replace at webapp.ts line 233 applies GetSubstitution to the
replacement, expanding the dollar-ampersand inside the double-encoded
literal to the matched body tag. -/
theorem c10_counterexample :
    injectArtifactsScript (some (Except.ok (some mDollar))) htmlDollar
      ≠ bodyLit ++ scriptTagFor mDollar ++ (("z").data) := by
  decide

/-- C10 (amended): the injection only replaces the first occurrence of the
exact literal body-tag substring: an HTML page without that literal (for
example a body tag carrying attributes) is returned unchanged even for a
non-empty AddressMap; when the literal occurs, only its first occurrence
is followed by the GetSubstitution expansion of the injected fragment
(dollar patterns in the replacement expand), which is the fragment
verbatim whenever the fragment contains no dollar character. -/
theorem c10_inject (m : AddressMap) (html : JStr) (hm : m ≠ []) :
    (hasSub bodyLit html = false →
      injectArtifactsScript (some (Except.ok (some m))) html = html)
    ∧ (∀ pre post : JStr, html = pre ++ bodyLit ++ post →
        (∀ i, i < pre.length → bodyLit.isPrefixOf (html.drop i) = false) →
        injectArtifactsScript (some (Except.ok (some m))) html
          = pre ++ expandDollars bodyLit pre post (bodyLit ++ scriptTagFor m) ++ post
        ∧ ((scriptTagFor m).all (fun c => c != ('$' : Char)) = true →
            injectArtifactsScript (some (Except.ok (some m))) html
              = pre ++ bodyLit ++ scriptTagFor m ++ post)) := by
  constructor
  · intro h
    rw [inject_eq_replace m html hm]
    unfold replaceFirstJS
    rw [firstIndexOf_eq_none bodyLit html (by decide) h]
  · intro pre post hdecomp hno
    exact ⟨inject_decomp m html pre post hm hdecomp hno,
      fun hd => inject_verbatim m html pre post hm hdecomp hno hd⟩

set_option maxRecDepth 100000 in
/-- Witness for C10: injecting a dollar-free fragment into a fixture page
whose only body-tag literal sits between fixed prefix and suffix parts. -/
theorem c10_witness :
    injectArtifactsScript (some (Except.ok (some wMapT))) wHtml
      = wHtmlPre ++ bodyLit ++ scriptTagFor wMapT ++ wHtmlPost :=
  ((c10_inject wMapT wHtml (by simp [wMapT])).2 wHtmlPre wHtmlPost rfl
    (by decide)).2 (by decide)

/-!
## Claim C9 (script-tag escaping)
-/

theorem noOcc_append (a rest : JStr)
    (h1 : ∀ i, i < a.length → ciStartsWith scriptPat (a.drop i ++ rest) = false)
    (h2 : NoOcc rest) : NoOcc (a ++ rest) := by
  intro i
  rw [List.drop_append_eq_append_drop]
  by_cases hi : i < a.length
  · rw [show i - a.length = 0 from by omega, List.drop_zero]
    exact h1 i hi
  · rw [List.drop_eq_nil_of_le (by omega), List.nil_append]
    exact h2 (i - a.length)

theorem occCount_append_eq (a rest : JStr)
    (h : ∀ i, i < a.length → ciStartsWith scriptPat (a.drop i ++ rest) = false) :
    occCount (a ++ rest) = occCount rest := by
  induction a with
  | nil => rfl
  | cons c a' ih =>
    have h0 := h 0 (by simp)
    rw [List.drop_zero] at h0
    rw [List.cons_append, occCount]
    rw [show c :: (a' ++ rest) = (c :: a') ++ rest from rfl, h0]
    simp only [Bool.false_eq_true, if_false, Nat.zero_add]
    exact ih (fun i hi => by
      have := h (i + 1) (by simp only [List.length_cons]; omega)
      simpa only [List.drop_succ_cons] using this)

theorem occCount_eq_zero (s : JStr) (h : NoOcc s) : occCount s = 0 := by
  induction s with
  | nil => rfl
  | cons c cs ih =>
    rw [occCount]
    have h0 := h 0
    rw [List.drop_zero] at h0
    rw [h0]
    simp only [Bool.false_eq_true, if_false, Nat.zero_add]
    exact ih (fun i => by
      have := h (i + 1)
      simpa only [List.drop_succ_cons] using this)

theorem replDropFalse : ∀ i, i < scriptRepl.length →
    ciStartsWith (scriptPat.take ((scriptRepl.drop i).length)) (scriptRepl.drop i) = false := by
  decide

theorem noOcc_repl_append (t : JStr) (h2 : NoOcc t) : NoOcc (scriptRepl ++ t) :=
  noOcc_append _ _ (fun i hi => ciStartsWith_append_false _ _ _ (replDropFalse i hi)) h2

theorem patTailReplFalse : ∀ n, n < scriptPat.length → 0 < n →
    ciStartsWith ((scriptPat.drop n).take scriptRepl.length) scriptRepl = false := by
  decide

theorem patTailRepl (n : Nat) (h1 : 0 < n) (h2 : n < scriptPat.length) (t : JStr) :
    ciStartsWith (scriptPat.drop n) (scriptRepl ++ t) = false :=
  ciStartsWith_append_false _ _ _ (patTailReplFalse n h2 h1)

theorem scrubGo_congr (fuel1 fuel2 : Nat) (s : JStr)
    (h1 : s.length ≤ fuel1) (h2 : s.length ≤ fuel2) :
    scrubGo fuel1 s = scrubGo fuel2 s := by
  induction fuel1 generalizing fuel2 s with
  | zero =>
    cases s with
    | nil => cases fuel2 <;> rfl
    | cons c cs => exact absurd h1 (by simp)
  | succ f ih =>
    cases s with
    | nil => cases fuel2 <;> rfl
    | cons c cs =>
      cases fuel2 with
      | zero => exact absurd h2 (by simp)
      | succ f2 =>
        have hp9 : scriptPat.length = 9 := rfl
        simp only [List.length_cons] at h1 h2
        simp only [scrubGo]
        by_cases hm : ciStartsWith scriptPat (c :: cs) = true
        · rw [if_pos hm, if_pos hm]
          have hlen : scriptPat.length ≤ (c :: cs).length := ciStartsWith_length_le _ _ hm
          simp only [List.length_cons] at hlen
          refine congrArg _ (ih _ _ ?_ ?_) <;>
            simp only [List.length_drop, List.length_cons] <;> omega
        · rw [if_neg hm, if_neg hm]
          exact congrArg (List.cons c) (ih _ _ (by omega) (by omega))

theorem scrub_cons (c : Char) (cs : JStr) :
    scrub (c :: cs)
      = if ciStartsWith scriptPat (c :: cs) then
          scriptRepl ++ scrub ((c :: cs).drop scriptPat.length)
        else c :: scrub cs := by
  show scrubGo (c :: cs).length (c :: cs) = _
  rw [show (c :: cs).length = cs.length + 1 from rfl]
  simp only [scrubGo]
  by_cases hm : ciStartsWith scriptPat (c :: cs) = true
  · rw [if_pos hm, if_pos hm]
    have hp9 : scriptPat.length = 9 := rfl
    have hlen : scriptPat.length ≤ (c :: cs).length := ciStartsWith_length_le _ _ hm
    simp only [List.length_cons] at hlen
    exact congrArg _ (scrubGo_congr _ _ _
      (by simp only [List.length_drop, List.length_cons]; omega) le_rfl)
  · rw [if_neg hm, if_neg hm]
    rfl

theorem scrub_decomp (s : JStr) :
    (NoOcc s ∧ scrub s = s)
    ∨ ∃ j, ciStartsWith scriptPat (s.drop j) = true
        ∧ (∀ i, i < j → ciStartsWith scriptPat (s.drop i) = false)
        ∧ scrub s = s.take j ++ (scriptRepl ++ scrub (s.drop (j + scriptPat.length))) := by
  induction s with
  | nil =>
    left
    constructor
    · intro i
      rw [List.drop_nil]
      decide
    · rfl
  | cons c cs ih =>
    by_cases hm : ciStartsWith scriptPat (c :: cs) = true
    · right
      refine ⟨0, by simpa using hm, fun i hi => absurd hi (by omega), ?_⟩
      rw [scrub_cons, if_pos hm]
      simp
    · rw [Bool.not_eq_true] at hm
      rcases ih with ⟨hno, heq⟩ | ⟨j, hj, hlt, heq⟩
      · left
        constructor
        · intro i
          cases i with
          | zero => simpa using hm
          | succ i' =>
            rw [List.drop_succ_cons]
            exact hno i'
        · rw [scrub_cons, if_neg (by simp [hm]), heq]
      · right
        refine ⟨j + 1, ?_, ?_, ?_⟩
        · simpa only [List.drop_succ_cons] using hj
        · intro i hi
          cases i with
          | zero => simpa using hm
          | succ i' =>
            rw [List.drop_succ_cons]
            exact hlt i' (by omega)
        · rw [scrub_cons, if_neg (by simp [hm]), heq]
          rw [List.take_succ_cons]
          rw [show j + 1 + scriptPat.length = (j + scriptPat.length) + 1 from by omega]
          rw [List.drop_succ_cons]
          rfl

theorem scrub_NoOcc (s : JStr) : NoOcc (scrub s) := by
  suffices H : ∀ (n : Nat) (s : JStr), s.length ≤ n → NoOcc (scrub s) from
    H s.length s le_rfl
  intro n
  induction n with
  | zero =>
    intro s hs
    rw [show s = [] from List.length_eq_zero.mp (by omega)]
    intro i
    rw [show scrub ([] : JStr) = [] from rfl, List.drop_nil]
    decide
  | succ n ihn =>
    intro s hs
    rcases scrub_decomp s with ⟨hno, heq⟩ | ⟨j, hj, hlt, heq⟩
    · rw [heq]
      exact hno
    · rw [heq]
      have hp9 : scriptPat.length = 9 := rfl
      have hjlen : scriptPat.length ≤ (s.drop j).length := ciStartsWith_length_le _ _ hj
      rw [List.length_drop] at hjlen
      have hslen : j + scriptPat.length ≤ s.length := by omega
      have hrec : NoOcc (scrub (s.drop (j + scriptPat.length))) := by
        apply ihn
        rw [List.length_drop]
        omega
      have hmid : NoOcc (scriptRepl ++ scrub (s.drop (j + scriptPat.length))) :=
        noOcc_repl_append _ hrec
      apply noOcc_append _ _ ?_ hmid
      intro i hi
      have htl : (s.take j).length = j := by
        rw [List.length_take]
        omega
      rw [htl] at hi
      by_cases hcase : scriptPat.length ≤ j - i
      · rw [ciStartsWith_append_of_le _ _ _ (by
          rw [List.length_drop, htl]
          omega)]
        rw [List.drop_take]
        rw [ciStartsWith_take _ _ _ hcase]
        exact hlt i (by omega)
      · push_neg at hcase
        rw [ciStartsWith_append]
        have halen : ((s.take j).drop i).length = j - i := by
          rw [List.length_drop, htl]
        rw [halen]
        rw [patTailRepl (j - i) (by omega) (by omega) _]
        rw [Bool.and_false]

theorem openDropFalse : ∀ i, i < scriptTagOpen.length →
    ciStartsWith (scriptPat.take ((scriptTagOpen.drop i).length)) (scriptTagOpen.drop i) = false := by
  decide

theorem midPatDropFalse : ∀ i, i < scriptTagMid.length →
    ciStartsWith scriptPat (scriptTagMid.drop i ++ scriptPat) = false := by
  decide

theorem patTailMid : ∀ n, n < scriptPat.length → 0 < n →
    ciStartsWith (scriptPat.drop n) (scriptTagMid ++ scriptPat) = false := by
  decide

theorem occCount_scriptPat : occCount scriptPat = 1 := by decide

/-- C9 (amended): for a non-empty AddressMap with a literal
closing-script-tag substring (in any letter case) inside a sourceCode
value, the script fragment built by injectArtifactsScript contains no
case-insensitive occurrence of the closing script tag inside its
double-encoded string literal, and exactly one such occurrence overall:
the tag that terminates the injected script element itself (the
fragment's final nine characters); and whenever the fragment contains no
dollar character, String.replace embeds it in the page verbatim, so the
same holds of the fragment embedded in the emitted page.  (A dollar
sequence in the data is expanded by GetSubstitution and can splice
surrounding page text into the emitted literal.) -/
theorem c9_escaping (m : AddressMap) (hne : m ≠ [])
    (hscript : ∃ kv ∈ m, ∃ sc : JStr, kv.2.sourceCode = some sc ∧ occCount sc ≠ 0) :
    occCount (scrub (doubleEncoded m)) = 0
    ∧ occCount (scriptTagFor m) = 1
    ∧ (scriptTagFor m).drop ((scriptTagFor m).length - scriptPat.length) = scriptPat
    ∧ (∀ pre post html : JStr, html = pre ++ bodyLit ++ post →
        (∀ i, i < pre.length → bodyLit.isPrefixOf (html.drop i) = false) →
        (scriptTagFor m).all (fun c => c != ('$' : Char)) = true →
        injectArtifactsScript (some (Except.ok (some m))) html
          = pre ++ bodyLit ++ scriptTagFor m ++ post) := by
  have hsafe : NoOcc (scrub (doubleEncoded m)) := scrub_NoOcc _
  refine ⟨occCount_eq_zero _ hsafe, ?_, ?_,
    fun pre post html hdecomp hno hd =>
      inject_verbatim m html pre post hne hdecomp hno hd⟩
  · rw [show scriptTagFor m
        = scriptTagOpen ++ (scrub (doubleEncoded m) ++ (scriptTagMid ++ scriptPat)) from by
      simp [scriptTagFor, List.append_assoc]]
    rw [occCount_append_eq scriptTagOpen _
      (fun i hi => ciStartsWith_append_false _ _ _ (openDropFalse i hi))]
    rw [occCount_append_eq (scrub (doubleEncoded m)) _ ?_]
    · rw [occCount_append_eq scriptTagMid _ midPatDropFalse]
      exact occCount_scriptPat
    · intro k hk
      by_cases hc : scriptPat.length ≤ ((scrub (doubleEncoded m)).drop k).length
      · rw [ciStartsWith_append_of_le _ _ _ hc]
        exact hsafe k
      · push_neg at hc
        rw [ciStartsWith_append]
        have h0 : 0 < ((scrub (doubleEncoded m)).drop k).length := by
          rw [List.length_drop]
          omega
        rw [patTailMid _ hc h0]
        rw [Bool.and_false]
  · rw [show scriptTagFor m
        = (scriptTagOpen ++ scrub (doubleEncoded m) ++ scriptTagMid) ++ scriptPat from by
      simp [scriptTagFor, List.append_assoc]]
    rw [List.length_append, Nat.add_sub_cancel]
    exact List.drop_left _ _

set_option maxRecDepth 100000 in
/-- Counterexample to C9 as stated: the fixture map's sourceCode contains
a literal closing script tag followed by a dollar-quote sequence, and the
page tail after the body tag contains a real closing script tag.
GetSubstitution expands the dollar-quote, surviving inside the scrubbed
double-encoded literal, to that page tail, so the emitted page carries 3
closing-script-tag occurrences where a verbatim embedding of the built
fragment (whose only occurrence is its terminator) would carry 2: an
actual closing tag is spliced into the emitted literal, and the embedded
fragment is not the built one. -/
theorem c9_counterexample :
    occCount (injectArtifactsScript (some (Except.ok (some mC9))) htmlC9) = 3
    ∧ occCount (bodyLit ++ scriptTagFor mC9 ++ (("k</script>").data)) = 2
    ∧ occCount htmlC9 = 1
    ∧ injectArtifactsScript (some (Except.ok (some mC9))) htmlC9
        ≠ bodyLit ++ scriptTagFor mC9 ++ (("k</script>").data) := by
  refine ⟨by decide, by decide, by decide, by decide⟩

set_option maxRecDepth 100000 in
/-- Witness for C9 on the fixture map whose sourceCode contains a literal
closing script tag (and no dollar): the dollar-free fragment is embedded
verbatim in the fixture page. -/
theorem c9_witness :
    injectArtifactsScript (some (Except.ok (some wInjectMap))) wHtml
      = wHtmlPre ++ bodyLit ++ scriptTagFor wInjectMap ++ wHtmlPost :=
  (c9_escaping wInjectMap (by simp [wInjectMap])
    ⟨((("0xab").data),
      { abi := [], contractName := ("C").data, sourceName := none, buildInfoId := none,
        sourceCode := some (("x</script>y").data), buildInfo := none,
        deployments := [("0xAB").data] }),
     by simp [wInjectMap], (("x</script>y").data), rfl,
     by decide⟩).2.2.2 wHtmlPre wHtmlPost wHtml rfl (by decide) (by decide)
